import Mathlib

/-!
Verification development for the FPGA-verification tool `fpgagen.py`:
a small two-pass RISC-V assembler (`RISCVAssembler`), a static
branch-fact deriver (`BranchTraceParser.generate_from_assembly`) and a
fixed-width branch-table packer (`generate_branch_mem`).

Python unbounded integers are modelled as `Int`.  The bitwise operators
of the source are modelled by `pyAnd`, `pyOr`, `pyShl`, `pyShr` below,
which implement the two's-complement semantics of Python's `&`, `|`,
`<<`, `>>` on arbitrary (also negative) integers.  Python strings are
modelled as `List Char`; the `str.strip`, `str.lower`, `str.split`
operations of the source are implemented structurally below.  A source
program, which the Python code receives as one string and splits on
newlines after stripping, is passed in as its list of source lines.
Python's `int(s, 0)` / `int(s)` literal parsing is modelled by
`pyIntBase0` / `pyIntBase10` (digit-grouping underscores, which Python
would additionally accept, are not modelled).  Exceptions
(`ValueError`, `IndexError`, `KeyError`) abort a run; fallible
operations therefore live in `Except String`.
-/

/-- Python `a & b` on unbounded two's-complement integers, written so that
it evaluates by kernel reduction.  For `m, n ≥ 0`:
`m & n = Nat.land`, `m & ~n = m - (m &&& n)` (the bits of `m` not in `n`),
`~m & n = n - (n &&& m)`, and `~m & ~n = ~(m | n)`. -/
def pyAnd : Int → Int → Int
  | .ofNat m, .ofNat n => .ofNat (m &&& n)
  | .ofNat m, .negSucc n => .ofNat (m - (m &&& n))
  | .negSucc m, .ofNat n => .ofNat (n - (n &&& m))
  | .negSucc m, .negSucc n => .negSucc (m ||| n)

/-- Python `a | b` on unbounded two's-complement integers (dual cases of
`pyAnd`): `m | n = Nat.lor`, `m | ~n = ~(n - (n &&& m))`,
`~m | n = ~(m - (m &&& n))`, `~m | ~n = ~(m &&& n)`. -/
def pyOr : Int → Int → Int
  | .ofNat m, .ofNat n => .ofNat (m ||| n)
  | .ofNat m, .negSucc n => .negSucc (n - (n &&& m))
  | .negSucc m, .ofNat n => .negSucc (m - (m &&& n))
  | .negSucc m, .negSucc n => .negSucc (m &&& n)

/-- Python `a << n`: exact multiplication by `2 ^ n`. -/
def pyShl (a : Int) (n : Nat) : Int := a * 2 ^ n

/-- Python `a >> n`: floor division by `2 ^ n` (Lean's `Int` division by a
positive divisor is floor division). -/
def pyShr (a : Int) (n : Nat) : Int := a / 2 ^ n

/-- The whitespace characters relevant to Python `str.strip` / `str.split`
for the ASCII sources handled here. -/
def isPySpace (c : Char) : Bool := c == ' ' || c == '\t' || c == '\n' || c == '\r'

/-- Python `str.strip()` on a list of characters. -/
def pyStrip (cs : List Char) : List Char :=
  ((cs.dropWhile isPySpace).reverse.dropWhile isPySpace).reverse

/-- ASCII lowering of one character (Python `str.lower` on the sources here). -/
def lowerChar (c : Char) : Char :=
  if c.toNat ≥ 65 && c.toNat ≤ 90 then Char.ofNat (c.toNat + 32) else c

/-- Python `str.lower()`. -/
def pyLower (cs : List Char) : List Char := cs.map lowerChar

/-- Helper for `pySplit`: splits at whitespace runs, accumulating the
current word reversed. -/
def wordsGo : List Char → List Char → List (List Char)
  | [], acc => if acc.isEmpty then [] else [acc.reverse]
  | c :: cs, acc =>
    if isPySpace c then
      if acc.isEmpty then wordsGo cs [] else acc.reverse :: wordsGo cs []
    else wordsGo cs (c :: acc)

/-- Python `str.split()` (no argument): split on whitespace runs,
discarding empty pieces. -/
def pySplit (cs : List Char) : List (List Char) := wordsGo cs []

/-- `line.replace(',', ' ').split()` of the source's second pass. -/
def pyTokens (cs : List Char) : List (List Char) :=
  pySplit (cs.map (fun c => if c == ',' then ' ' else c))

/-- `line.startswith('#')` on an already stripped line. -/
def startsWithHash : List Char → Bool
  | '#' :: _ => true
  | _ => false

/-- Value of one digit character in the given base, if valid. -/
def digitVal (base : Nat) (c : Char) : Option Nat :=
  let v :=
    if '0' ≤ c ∧ c ≤ '9' then some (c.toNat - 48)
    else if 'a' ≤ c ∧ c ≤ 'f' then some (c.toNat - 87)
    else if 'A' ≤ c ∧ c ≤ 'F' then some (c.toNat - 55)
    else none
  match v with
  | some d => if d < base then some d else none
  | none => none

/-- Accumulating digit-string evaluation. -/
def digitsValGo (base : Nat) (acc : Nat) : List Char → Option Nat
  | [] => some acc
  | c :: cs =>
    match digitVal base c with
    | some d => digitsValGo base (acc * base + d) cs
    | none => none

/-- Value of a non-empty string of digits in the given base. -/
def digitsVal (base : Nat) (cs : List Char) : Option Nat :=
  match cs with
  | [] => none
  | _ => digitsValGo base 0 cs

/-- Python `int(s)` (base 10): optional sign, then one or more decimal
digits; leading zeros are allowed in base 10. -/
def pyIntBase10 (cs : List Char) : Option Int :=
  match cs with
  | '+' :: rest => (digitsVal 10 rest).map (fun n => (n : Int))
  | '-' :: rest => (digitsVal 10 rest).map (fun n => -(n : Int))
  | rest => (digitsVal 10 rest).map (fun n => (n : Int))

/-- The unsigned part of Python `int(s, 0)`: base auto-detection.
`0x`/`0X`, `0o`/`0O`, `0b`/`0B` prefixes select base 16/8/2; otherwise
decimal, where a literal starting with `0` is valid only if it is all
zeros (Python rejects `010` in base 0). -/
def pyNatBase0 : List Char → Option Nat
  | '0' :: c :: rest =>
    if c == 'x' || c == 'X' then digitsVal 16 rest
    else if c == 'o' || c == 'O' then digitsVal 8 rest
    else if c == 'b' || c == 'B' then digitsVal 2 rest
    else if (c :: rest).all (fun d => d == '0') then some 0
    else none
  | cs => digitsVal 10 cs

/-- Python `int(s, 0)`: optional sign, then `pyNatBase0`. -/
def pyIntBase0 (cs : List Char) : Option Int :=
  match cs with
  | '+' :: rest => (pyNatBase0 rest).map (fun n => (n : Int))
  | '-' :: rest => (pyNatBase0 rest).map (fun n => -(n : Int))
  | rest => (pyNatBase0 rest).map (fun n => (n : Int))

/-- The label table `self.labels`: a Python dict modelled as an
association list where insertion prepends, so that lookup of the first
match gives the most recent binding (dict overwrite semantics). -/
abbrev LabelMap := List (List Char × Int)

/-- Dict lookup: value of the most recently inserted binding of `k`. -/
def lookupAssoc (m : LabelMap) (k : List Char) : Option Int :=
  match m.find? (fun p => p.1 == k) with
  | some p => some p.2
  | none => none

/-- The fixed ABI alias table of `RISCVAssembler._parse_register`. -/
def reg_map : LabelMap :=
  [("zero".data, 0), ("ra".data, 1), ("sp".data, 2), ("gp".data, 3), ("tp".data, 4),
   ("t0".data, 5), ("t1".data, 6), ("t2".data, 7), ("s0".data, 8), ("fp".data, 8),
   ("s1".data, 9), ("a0".data, 10), ("a1".data, 11), ("a2".data, 12), ("a3".data, 13),
   ("a4".data, 14), ("a5".data, 15), ("a6".data, 16), ("a7".data, 17),
   ("s2".data, 18), ("s3".data, 19), ("s4".data, 20), ("s5".data, 21),
   ("s6".data, 22), ("s7".data, 23), ("s8".data, 24), ("s9".data, 25),
   ("s10".data, 26), ("s11".data, 27), ("t3".data, 28), ("t4".data, 29),
   ("t5".data, 30), ("t6".data, 31)]

/-- `RISCVAssembler._parse_register`: lower-case and strip the token; a
token starting with `x` has its remainder parsed as a base-10 integer
(`ValueError` on failure); otherwise the ABI alias table is consulted
with default 0. -/
def parse_register (tok : List Char) : Except String Int :=
  match pyStrip (pyLower tok) with
  | 'x' :: rest =>
    match pyIntBase10 rest with
    | some v => .ok v
    | none => .error "ValueError: invalid literal for int"
  | r =>
    match lookupAssoc reg_map r with
    | some v => .ok v
    | none => .ok 0

/-- Python `operands[i]`: `IndexError` when out of range. -/
def getOperand (operands : List (List Char)) (i : Nat) : Except String (List Char) :=
  match operands.get? i with
  | some t => .ok t
  | none => .error "IndexError"

/-- Branch/jump target resolution shared by `_encode_branch` and
`_encode_jump` (JAL): a target in `self.labels` resolves to
`labels[target] - pc`, otherwise `int(target, 0)` (`ValueError` on
failure). -/
def resolveTarget (labels : LabelMap) (target : List Char) (pc : Int) : Except String Int :=
  match lookupAssoc labels target with
  | some addr => .ok (addr - pc)
  | none =>
    match pyIntBase0 target with
    | some v => .ok v
    | none => .error "ValueError: invalid literal for int"

/-- `funct3_map.get(opcode, 0)` of `_encode_branch`. -/
def funct3Branch (opcode : List Char) : Int :=
  if opcode = "beq".data then 0
  else if opcode = "bne".data then 1
  else if opcode = "blt".data then 4
  else if opcode = "bge".data then 5
  else 0

/-- `RISCVAssembler._encode_branch`.  Note that `imm12 = offset & 0x1000`
is OR-ed into the word unshifted, i.e. at word bit 12. -/
def encode_branch (labels : LabelMap) (opcode : List Char) (operands : List (List Char))
    (pc : Int) : Except String Int := do
  let t0 ← getOperand operands 0
  let rs1 ← parse_register t0
  let t1 ← getOperand operands 1
  let rs2 ← parse_register t1
  let target ← getOperand operands 2
  let offset ← resolveTarget labels target pc
  let funct3 := funct3Branch opcode
  let imm12 := pyAnd offset 0x1000
  let imm10_5 := pyShl (pyAnd offset 0x7E0) 20
  let imm4_1 := pyShl (pyAnd offset 0x1E) 7
  let imm11 := pyShr (pyAnd offset 0x800) 4
  pure (pyOr (pyOr (pyOr (pyOr (pyOr (pyOr (pyOr 0x63 (pyShl funct3 12)) (pyShl rs1 15))
    (pyShl rs2 20)) imm4_1) imm11) imm10_5) imm12)

/-- `RISCVAssembler._encode_jump` (both the `jal` and the `jalr` arm). -/
def encode_jump (labels : LabelMap) (opcode : List Char) (operands : List (List Char))
    (pc : Int) : Except String Int :=
  if opcode = "jal".data then do
    let t0 ← getOperand operands 0
    let rd ← parse_register t0
    let target ← getOperand operands 1
    let offset ← resolveTarget labels target pc
    pure (pyOr (pyOr 0x6F (pyShl rd 7)) (pyAnd offset 0xFFFFF000))
  else do
    let t0 ← getOperand operands 0
    let rd ← parse_register t0
    let t1 ← getOperand operands 1
    let rs1 ← parse_register t1
    let offset ←
      if operands.length > 2 then do
        let t2 ← getOperand operands 2
        match pyIntBase0 t2 with
        | some v => Except.ok v
        | none => Except.error "ValueError: invalid literal for int"
      else Except.ok 0
    pure (pyOr (pyOr (pyOr (pyOr 0x67 (pyShl rd 7)) (pyShl 0 12)) (pyShl rs1 15))
      (pyShl (pyAnd offset 0xFFF) 20))

/-- `funct3_map[opcode]` / `funct7_map[opcode]` of `_encode_rtype`
(`KeyError` on a missing key). -/
def keyLookup (m : LabelMap) (k : List Char) : Except String Int :=
  match lookupAssoc m k with
  | some v => .ok v
  | none => .error "KeyError"

/-- funct3 table of `_encode_rtype`. -/
def rtypeFunct3 : LabelMap :=
  [("add".data, 0), ("sub".data, 0), ("and".data, 7), ("or".data, 6), ("xor".data, 4)]

/-- funct7 table of `_encode_rtype`. -/
def rtypeFunct7 : LabelMap :=
  [("add".data, 0), ("sub".data, 0x20), ("and".data, 0), ("or".data, 0), ("xor".data, 0)]

/-- `RISCVAssembler._encode_rtype`. -/
def encode_rtype (opcode : List Char) (operands : List (List Char)) : Except String Int := do
  let t0 ← getOperand operands 0
  let rd ← parse_register t0
  let t1 ← getOperand operands 1
  let rs1 ← parse_register t1
  let t2 ← getOperand operands 2
  let rs2 ← parse_register t2
  let f3 ← keyLookup rtypeFunct3 opcode
  let f7 ← keyLookup rtypeFunct7 opcode
  pure (pyOr (pyOr (pyOr (pyOr (pyOr 0x33 (pyShl rd 7)) (pyShl f3 12)) (pyShl rs1 15))
    (pyShl rs2 20)) (pyShl f7 25))

/-- funct3 table of `_encode_itype`. -/
def itypeFunct3 : LabelMap :=
  [("addi".data, 0), ("andi".data, 7), ("ori".data, 6), ("xori".data, 4)]

/-- `RISCVAssembler._encode_itype`. -/
def encode_itype (opcode : List Char) (operands : List (List Char)) : Except String Int := do
  let t0 ← getOperand operands 0
  let rd ← parse_register t0
  let t1 ← getOperand operands 1
  let rs1 ← parse_register t1
  let t2 ← getOperand operands 2
  let imm ←
    match pyIntBase0 t2 with
    | some v => Except.ok v
    | none => Except.error "ValueError: invalid literal for int"
  let f3 ← keyLookup itypeFunct3 opcode
  pure (pyOr (pyOr (pyOr (pyOr 0x13 (pyShl rd 7)) (pyShl f3 12)) (pyShl rs1 15))
    (pyShl (pyAnd imm 0xFFF) 20))

/-- The per-line dispatch of `RISCVAssembler.assemble`'s second pass:
`parts = line.replace(',', ' ').split()`, `opcode = parts[0].lower()`,
then the if/elif chain; unrecognized mnemonics (and `nop`) encode to
`0x00000013`. -/
def encode_line (labels : LabelMap) (pc : Int) (parts : List (List Char)) :
    Except String Int :=
  match parts with
  | [] => .error "IndexError"
  | p0 :: operands =>
    let opcode := pyLower p0
    if opcode ∈ ["beq".data, "bne".data, "blt".data, "bge".data] then
      encode_branch labels opcode operands pc
    else if opcode ∈ ["jal".data, "jalr".data] then
      encode_jump labels opcode operands pc
    else if opcode ∈ ["add".data, "sub".data, "and".data, "or".data, "xor".data] then
      encode_rtype opcode operands
    else if opcode ∈ ["addi".data, "andi".data, "ori".data, "xori".data] then
      encode_itype opcode operands
    else if opcode = "nop".data then .ok 0x13
    else .ok 0x13

/-- `label = line.split(':')[0].strip()` of the first pass. -/
def labelOf (line : List Char) : List Char :=
  pyStrip (line.takeWhile (fun c => !(c == ':')))

/-- Pass 1 of `RISCVAssembler.assemble`: collect labels into
`self.labels` (which may already hold bindings from an earlier call on
the same instance); a line containing `:` records a label at the
current pc and does not advance it; blank and `#`-leading lines are
skipped; any other line advances the pc by 4. -/
def pass1Go (labels : LabelMap) (pc : Int) : List (List Char) → LabelMap
  | [] => labels
  | l :: rest =>
    let line := pyStrip l
    if line.isEmpty || startsWithHash line then pass1Go labels pc rest
    else if line.contains ':' then pass1Go ((labelOf line, pc) :: labels) pc rest
    else pass1Go labels (pc + 4) rest

/-- Pass 2 of `RISCVAssembler.assemble`: skip blank, `#`-leading and
`:`-containing lines, encode every other line at the running pc; a
raised exception aborts the whole run with no output. -/
def pass2Go (labels : LabelMap) (pc : Int) : List (List Char) → Except String (List Int)
  | [] => .ok []
  | l :: rest =>
    let line := pyStrip l
    if line.isEmpty || startsWithHash line || line.contains ':' then pass2Go labels pc rest
    else
      match encode_line labels pc (pyTokens line) with
      | .error e => .error e
      | .ok w => (pass2Go labels (pc + 4) rest).map (fun ws => w :: ws)

/-- `RISCVAssembler.assemble` run on an instance whose `self.labels`
already holds `labels0` (a fresh instance has `labels0 = []`).  The
source splits the input string on newlines; a program is passed here as
its list of source lines. -/
def assembleWith (labels0 : LabelMap) (progLines : List String) : Except String (List Int) :=
  pass2Go (pass1Go labels0 0 (progLines.map (fun s => s.data))) 0
    (progLines.map (fun s => s.data))

/-- `RISCVAssembler().assemble(...)` on a freshly constructed instance. -/
def assemble (progLines : List String) : Except String (List Int) :=
  assembleWith [] progLines

/-- One step of `BranchTraceParser.generate_from_assembly`: the fact (if
any) derived from the word `inst` at enumeration index `i` and address
`pc`.  Opcode `0x63` reassembles the scattered B-immediate from word
bits 31, 30:25, 11:8, 7 with the placeholder policy `taken = (i % 2 == 0)`;
opcode `0x6F` reassembles the standard J-immediate from word bits 31,
30:21, 20, 19:12 with `taken = True`; other opcodes yield nothing. -/
def branchFactAt (i : Nat) (pc : Int) (inst : Int) : Option (Int × Bool × Int) :=
  let opcode := pyAnd inst 0x7F
  if opcode = 0x63 then
    let imm12 := pyAnd (pyShr inst 31) 0x1
    let imm10_5 := pyAnd (pyShr inst 25) 0x3F
    let imm4_1 := pyAnd (pyShr inst 8) 0xF
    let imm11 := pyAnd (pyShr inst 7) 0x1
    let offset0 := pyOr (pyOr (pyOr (pyShl imm12 12) (pyShl imm11 11)) (pyShl imm10_5 5))
      (pyShl imm4_1 1)
    let offset := if imm12 ≠ 0 then pyOr offset0 0xFFFFE000 else offset0
    some (pc, i % 2 == 0, pyAnd (pc + offset) 0xFFFFFFFF)
  else if opcode = 0x6F then
    let imm20 := pyAnd (pyShr inst 31) 0x1
    let imm10_1 := pyAnd (pyShr inst 21) 0x3FF
    let imm11 := pyAnd (pyShr inst 20) 0x1
    let imm19_12 := pyAnd (pyShr inst 12) 0xFF
    let offset0 := pyOr (pyOr (pyOr (pyShl imm20 20) (pyShl imm19_12 12)) (pyShl imm11 11))
      (pyShl imm10_1 1)
    let offset := if imm20 ≠ 0 then pyOr offset0 0xFFE00000 else offset0
    some (pc, true, pyAnd (pc + offset) 0xFFFFFFFF)
  else none

/-- The enumeration loop of `generate_from_assembly`: index starts at 0,
pc starts at 0 and advances by 4 for every word. -/
def genGo (i : Nat) (pc : Int) : List Int → List (Int × Bool × Int)
  | [] => []
  | inst :: rest =>
    match branchFactAt i pc inst with
    | some f => f :: genGo (i + 1) (pc + 4) rest
    | none => genGo (i + 1) (pc + 4) rest

/-- `BranchTraceParser.generate_from_assembly`. -/
def generate_from_assembly (machine_code : List Int) : List (Int × Bool × Int) :=
  genGo 0 0 machine_code

/-- `index = (pc >> 2) & 0xFF` of `generate_branch_mem`. -/
def tableIdx (pc : Int) : Int := pyAnd (pyShr pc 2) 0xFF

/-- `entry = (valid << 65) | (int(taken) << 64) | (pc << 32) | target`
with `valid = 1`, for a fact `(pc, taken, target)`. -/
def packEntry (f : Int × Bool × Int) : Int :=
  pyOr (pyOr (pyOr (pyShl 1 65) (pyShl (if f.2.1 then 1 else 0) 64)) (pyShl f.1 32)) f.2.2

/-- The `branch_table` dict built by `generate_branch_mem`:
`branch_table[index] = entry` for each fact in order, modelled (like
`LabelMap`) by prepending so that the most recent binding wins. -/
def buildBranchTable (facts : List (Int × Bool × Int)) : List (Int × Int) :=
  facts.foldl (fun tbl f => (tableIdx f.1, packEntry f) :: tbl) []

/-- The value serialized for slot `idx` (0–255): the packed entry when
the slot is occupied, otherwise the all-zero invalid entry. -/
def slotValue (facts : List (Int × Bool × Int)) (idx : Int) : Int :=
  match (buildBranchTable facts).find? (fun p => p.1 == idx) with
  | some p => p.2
  | none => 0

/-- Following the words of claim C10: a token that "parses as a decimal
or 0x-prefixed integer literal" (optional sign; decimal digits, or
`0x`/`0X` followed by hex digits). -/
def specNatLit : List Char → Option Nat
  | '0' :: c :: rest =>
    if c == 'x' || c == 'X' then digitsVal 16 rest
    else digitsVal 10 ('0' :: c :: rest)
  | cs => digitsVal 10 cs

/-- Signed version of `specNatLit`. -/
def specDecimalOrHexLit (cs : List Char) : Option Int :=
  match cs with
  | '+' :: rest => (specNatLit rest).map (fun n => (n : Int))
  | '-' :: rest => (specNatLit rest).map (fun n => -(n : Int))
  | rest => (specNatLit rest).map (fun n => (n : Int))

/-- Following the words of claim C4: target `(pc + sign_extend(w &
0xFFFFF000)) mod 2^32` with sign extension from bit 31 of `w`
(subtracting `2^32` when the bit is set). -/
def specJalTarget (pc w : Int) : Int :=
  let v := pyAnd w 0xFFFFF000
  let offset := if pyAnd (pyShr w 31) 1 ≠ 0 then v - 0x100000000 else v
  (pc + offset) % 0x100000000

/-! ### Bridging lemmas between the Python bit operations and arithmetic -/

theorem pyAnd_coe (x y : Nat) : pyAnd (x : Int) (y : Int) = ((x &&& y : Nat) : Int) := rfl

theorem pyOr_coe (x y : Nat) : pyOr (x : Int) (y : Int) = ((x ||| y : Nat) : Int) := rfl

theorem pyShl_coe (x k : Nat) : pyShl (x : Int) k = ((x * 2 ^ k : Nat) : Int) := by
  unfold pyShl; push_cast; ring

theorem pyShr_coe (x k : Nat) : pyShr (x : Int) k = ((x / 2 ^ k : Nat) : Int) := by
  unfold pyShr; norm_cast

theorem pyAnd_mask (w : Int) (k : Nat) (hw : 0 ≤ w) : pyAnd w (2 ^ k - 1) = w % 2 ^ k := by
  obtain ⟨m, rfl⟩ := Int.eq_ofNat_of_zero_le hw
  have h1 : 1 ≤ 2 ^ k := Nat.one_le_two_pow
  have h2 : ((2 : Int) ^ k - 1) = ((2 ^ k - 1 : Nat) : Int) := by push_cast [h1]; ring
  rw [h2, pyAnd_coe, Nat.and_pow_two_sub_one_eq_mod]
  push_cast
  rfl

theorem pyOr_comm (x y : Int) : pyOr x y = pyOr y x := by
  cases x <;> cases y <;> simp [pyOr, Nat.lor_comm, Nat.land_comm]

theorem pyOr_eq_add (x y : Int) (k : Nat) (hx0 : 0 ≤ x) (hx : x % 2 ^ k = 0) (hy0 : 0 ≤ y)
    (hy : y < 2 ^ k) : pyOr x y = x + y := by
  obtain ⟨m, rfl⟩ := Int.eq_ofNat_of_zero_le hx0
  obtain ⟨n, rfl⟩ := Int.eq_ofNat_of_zero_le hy0
  have hp : (0 : Int) < 2 ^ k := by positivity
  have hm : m % 2 ^ k = 0 := by
    have : ((2 : Int) ^ k) = ((2 ^ k : Nat) : Int) := by push_cast; ring
    rw [this] at hx
    exact_mod_cast hx
  have hn : n < 2 ^ k := by
    have : ((2 : Int) ^ k) = ((2 ^ k : Nat) : Int) := by push_cast; ring
    rw [this] at hy
    exact_mod_cast hy
  obtain ⟨a, rfl⟩ : ∃ a, m = 2 ^ k * a :=
    ⟨m / 2 ^ k, (Nat.mul_div_cancel' (Nat.dvd_of_mod_eq_zero hm)).symm⟩
  rw [pyOr_coe, ← Nat.mul_add_lt_is_or hn a]
  push_cast
  ring

/-! ### Claims C1, C2, C3: the branch-immediate round trip -/

/-- C1 (code bug): the spec's round-trip contract demands that decoding an
encoded branch recovers the target, but `_encode_branch` ORs
`offset & 0x1000` into the word unshifted (word bit 12) while the decoder
reads the sign from word bit 31.  At address 16, `beq x0, x0, -8`
(target T = 8) encodes to `0x7E001CE3`, which the static deriver decodes
to target 4104, not 8. -/
theorem branch_roundtrip_violated_at_neg8 :
    encode_branch [] "beq".data ["x0".data, "x0".data, "-8".data] 16 = .ok 0x7E001CE3 ∧
    branchFactAt 4 16 0x7E001CE3 = some (16, true, 4104) ∧
    (4104 : Int) ≠ (8 : Int) % 2 ^ 32 :=
  ⟨rfl, by decide, by decide⟩

/-- C2 (counterexample): assembling the five-instruction loop program of
§8 does produce 5 words, but the static deriver decodes the `bne` word to
target 4104, not 8 (and hence not to offset −12 either). -/
theorem loop_program_bne_target_not_8 :
    assemble ["addi x1, x0, 10", "addi x2, x0, 0", "loop:", "addi x2, x2, 1",
      "addi x1, x1, -1", "bne x1, x0, loop"] =
      .ok [0x00A00093, 0x00000113, 0x00110113, 0xFFF08093, 0x7E009CE3] ∧
    generate_from_assembly [0x00A00093, 0x00000113, 0x00110113, 0xFFF08093, 0x7E009CE3] =
      [(16, true, 4104)] ∧
    ∀ tg, (16, true, tg) ∈
        generate_from_assembly [0x00A00093, 0x00000113, 0x00110113, 0xFFF08093, 0x7E009CE3] →
      tg ≠ 8 := by
  refine ⟨rfl, by decide, ?_⟩
  intro tg h
  rw [show generate_from_assembly [0x00A00093, 0x00000113, 0x00110113, 0xFFF08093, 0x7E009CE3] =
        [(16, true, 4104)] from by decide] at h
  simp only [List.mem_singleton, Prod.mk.injEq] at h
  omega

/-- C2 (amended): the five-line loop program assembles to exactly 5 machine
words; the label `loop` sits at address 8 so the `bne` at address 16 is
encoded with true offset −8, but the static deriver decodes the `bne` word
to the single fact (16, taken, 4104), i.e. a decoded offset of +4088: the
encoder leaves the offset's bit 12 at word bit 12, where the decoder
(which reads the sign from bit 31) never looks. -/
theorem loop_program_decoded_fact :
    pass1Go [] 0 (["addi x1, x0, 10", "addi x2, x0, 0", "loop:", "addi x2, x2, 1",
      "addi x1, x1, -1", "bne x1, x0, loop"].map (fun s => s.data)) = [("loop".data, 8)] ∧
    assemble ["addi x1, x0, 10", "addi x2, x0, 0", "loop:", "addi x2, x2, 1",
      "addi x1, x1, -1", "bne x1, x0, loop"] =
      .ok [0x00A00093, 0x00000113, 0x00110113, 0xFFF08093, 0x7E009CE3] ∧
    generate_from_assembly [0x00A00093, 0x00000113, 0x00110113, 0xFFF08093, 0x7E009CE3] =
      [(16, true, 4104)] ∧
    (4104 : Int) = (16 + 4088) % 2 ^ 32 :=
  ⟨rfl, rfl, by decide, by decide⟩

/-- C3 (code bug): the spec's B-type layout sends offset bit 12 to word
bit 31, but `_encode_branch` computes `imm12 = offset & 0x1000` and ORs it
in unshifted.  For `beq x0, x0, -8` at address 0 the offset −8 has bit 12
set, yet the encoded word `0x7E001CE3` has bit 31 clear and its funct3
field reads 1 instead of beq's 0 (corrupted by the stray bit 12). -/
theorem b_imm12_lands_at_bit12_not_bit31 :
    pyShr (-8 : Int) 12 % 2 = 1 ∧
    encode_branch [] "beq".data ["x0".data, "x0".data, "-8".data] 0 = .ok 0x7E001CE3 ∧
    pyShr (0x7E001CE3 : Int) 31 % 2 = 0 ∧
    pyShr (0x7E001CE3 : Int) 12 % 8 = 1 ∧
    funct3Branch "beq".data = 0 :=
  ⟨by decide, rfl, by decide, by decide, rfl⟩

/-! ### Claim C7: the label table across invocations -/

/-- C7 (counterexample): labels persist in `self.labels` across `assemble`
calls.  After assembling `8:`, assembling `beq x0, x0, 8` on the same
instance resolves the target `8` as a leftover label (offset 0, word
`0x00000063`), while a fresh instance parses it as the literal 8 (word
`0x00000463`). -/
theorem reused_assembler_differs_from_fresh :
    assembleWith (pass1Go [] 0 ["8:".data]) ["beq x0, x0, 8"] = .ok [0x63] ∧
    assemble ["beq x0, x0, 8"] = .ok [0x463] ∧
    ((0x63 : Int) ≠ 0x463) :=
  ⟨rfl, rfl, by decide⟩

/-- C7 (amended): `RISCVAssembler.__init__` creates `self.labels` once and
`assemble` never clears it, so the symbol table outlives one invocation:
assembling `8:` leaves the binding `8 ↦ 0` in the table, after which
`beq x0, x0, 8` assembles to `[0x00000063]` on the reused instance but to
`[0x00000463]` on a fresh one. -/
theorem labels_survive_between_invocations :
    pass1Go [] 0 ["8:".data] = [("8".data, 0)] ∧
    assembleWith [("8".data, 0)] ["beq x0, x0, 8"] = .ok [0x63] ∧
    assemble ["beq x0, x0, 8"] = .ok [0x463] :=
  ⟨rfl, rfl, rfl⟩

/-! ### Claim C5: register resolution -/

/-- C5 (counterexample): `_parse_register` returns the full parsed value of
an out-of-range numeric token and `_encode_rtype` shifts it in without any
masking, so `add x32, x0, x0` encodes to `0x1033`, whose funct3 field
(word bits 14:12) reads 1 although `add` has funct3 0 — a field other
than the 5-bit register field is affected, contradicting the claim. -/
theorem x32_corrupts_funct3 :
    parse_register "x32".data = .ok 32 ∧
    encode_rtype "add".data ["x32".data, "x0".data, "x0".data] = .ok 0x1033 ∧
    pyShr (0x1033 : Int) 12 % 8 ≠ 0 :=
  ⟨rfl, rfl, by decide⟩

/-- C5 (amended): the register resolver performs no masking at all: a
numeric token `xN` resolves to the full value N, which `_encode_rtype`
shifts into the word so that N = 32 flips the low funct3 bit; a token that
does not start with `x` and is not in the alias table resolves to register
0; and a token starting with `x` whose remainder is not a base-10 integer
raises a `ValueError` instead of resolving to 0. -/
theorem register_resolver_unmasked :
    (∀ tok : List Char, (pyStrip (pyLower tok)).head? ≠ some 'x' →
      lookupAssoc reg_map (pyStrip (pyLower tok)) = none → parse_register tok = .ok 0) ∧
    parse_register "x32".data = .ok 32 ∧
    encode_rtype "add".data ["x32".data, "x0".data, "x0".data] = .ok 0x1033 ∧
    pyShr (0x1033 : Int) 12 % 8 = 1 ∧
    (∃ e, parse_register "xq".data = .error e) := by
  refine ⟨?_, rfl, rfl, by decide, ⟨_, rfl⟩⟩
  intro tok hx hlook
  unfold parse_register
  split
  · rename_i rest hr
    rw [hr] at hx
    simp at hx
  · rw [hlook]

/-- C5 (witness): a name not starting with `x` and outside the alias table
resolves to register 0. -/
theorem register_resolver_unmasked_witness :
    parse_register "hello".data = .ok 0 :=
  register_resolver_unmasked.1 "hello".data (by decide) (by decide)

/-! ### Claim C6: comments and label lines -/

/-- C6 (counterexample): a trailing `#` comment is not stripped; since the
comment contains a `:`, the whole line is treated as a label definition
and emits no word, so the line with the comment does not assemble to the
same word as the line without it. -/
theorem trailing_comment_with_colon_changes_code :
    assemble ["addi x1, x0, 10 # note: x"] = .ok [] ∧
    assemble ["addi x1, x0, 10"] = .ok [0x00A00093] ∧
    assemble ["addi x1, x0, 10 # note: x"] ≠ assemble ["addi x1, x0, 10"] := by
  refine ⟨rfl, rfl, fun h => ?_⟩
  rw [show assemble ["addi x1, x0, 10 # note: x"] = .ok [] from rfl,
      show assemble ["addi x1, x0, 10"] = .ok [0x00A00093] from rfl] at h
  exact absurd (Except.ok.inj h) (by decide)

/-- C6 (amended): `#` only makes a line a comment when it is the first
character of the stripped line, and a `:` anywhere in a non-comment line —
even inside a trailing comment — turns the whole line into a label
definition: the text before the first `:` is recorded as a label at the
current address and the line emits no machine code. -/
theorem colon_anywhere_makes_label_line (l : String) (h1 : pyStrip l.data ≠ [])
    (h2 : startsWithHash (pyStrip l.data) = false)
    (h3 : (pyStrip l.data).contains ':' = true) :
    assemble [l] = .ok [] ∧ pass1Go [] 0 [l.data] = [(labelOf (pyStrip l.data), 0)] := by
  have hne : (pyStrip l.data).isEmpty = false := by
    cases hp : (pyStrip l.data).isEmpty
    · rfl
    · exact absurd (List.isEmpty_iff.mp hp) h1
  have h3m : ':' ∈ pyStrip l.data := by simpa using h3
  constructor
  · show pass2Go (pass1Go [] 0 [l.data]) 0 [l.data] = .ok []
    unfold pass2Go
    simp [hne, h2, h3, h3m, pass2Go]
  · unfold pass1Go
    simp [hne, h2, h3, h3m, pass1Go]

/-- C6 (witness): the instruction line with a trailing `#` comment holding
a `:` assembles to no code, and defines the label `addi x1, x0, 10 # note`. -/
theorem colon_anywhere_makes_label_line_witness :
    assemble ["addi x1, x0, 10 # note: x"] = .ok [] ∧
    pass1Go [] 0 ["addi x1, x0, 10 # note: x".data] =
      [(labelOf (pyStrip "addi x1, x0, 10 # note: x".data), 0)] :=
  colon_anywhere_makes_label_line "addi x1, x0, 10 # note: x" (by decide) (by decide) (by decide)

/-! ### Claim C9: branch-table collisions, last write wins -/

theorem find_foldl_no_hit (i : Int) (l : List (Int × Bool × Int))
    (hl : ∀ g ∈ l, tableIdx g.1 ≠ i) (tbl : List (Int × Int)) :
    ((l.foldl (fun t f => (tableIdx f.1, packEntry f) :: t) tbl).find? (fun p => p.1 == i)) =
      tbl.find? (fun p => p.1 == i) := by
  induction l generalizing tbl with
  | nil => rfl
  | cons g l ih =>
    rw [List.foldl_cons, ih (fun x hx => hl x (List.mem_cons_of_mem _ hx)) _]
    exact List.find?_cons_of_neg _ (by simpa using hl g (List.mem_cons_self g l))

/-- C9: if a fact sequence contains `f1` and later `f2` whose addresses
differ by a multiple of 1024, the two facts share the table index
`(address >> 2) & 0xFF`, and — provided `f2` is the last fact mapping to
that index, it being "the later-supplied fact" of the collision — the
packed table's shared slot holds exactly `packEntry f2`: the build is a
total function (nothing is raised) and earlier colliding entries are
simply shadowed, with no merging. -/
theorem table_collision_last_write_wins (l1 l2 l3 : List (Int × Bool × Int))
    (f1 f2 : Int × Bool × Int) (h1 : 0 ≤ f1.1) (h2 : 0 ≤ f2.1)
    (hdiff : (f1.1 - f2.1) % 1024 = 0)
    (hlast : ∀ g ∈ l3, tableIdx g.1 ≠ tableIdx f2.1) :
    tableIdx f1.1 = tableIdx f2.1 ∧
    slotValue (l1 ++ f1 :: l2 ++ f2 :: l3) (tableIdx f2.1) = packEntry f2 := by
  have e1 : tableIdx f1.1 = f1.1 / 4 % 256 := by
    unfold tableIdx pyShr
    rw [show (255 : Int) = 2 ^ 8 - 1 from by norm_num]
    rw [pyAnd_mask _ 8 (Int.ediv_nonneg h1 (by norm_num))]
    norm_num
  have e2 : tableIdx f2.1 = f2.1 / 4 % 256 := by
    unfold tableIdx pyShr
    rw [show (255 : Int) = 2 ^ 8 - 1 from by norm_num]
    rw [pyAnd_mask _ 8 (Int.ediv_nonneg h2 (by norm_num))]
    norm_num
  refine ⟨by rw [e1, e2]; omega, ?_⟩
  rw [show l1 ++ f1 :: l2 ++ f2 :: l3 = (l1 ++ f1 :: l2) ++ (f2 :: l3) from by simp]
  unfold slotValue buildBranchTable
  rw [List.foldl_append, List.foldl_cons]
  rw [find_foldl_no_hit _ _ hlast]
  rw [List.find?_cons_of_pos _ (by simp)]

/-- C9 (witness): the facts at addresses 1024 and 0 collide on slot 0 and
the slot holds the packed record of the later fact. -/
theorem table_collision_last_write_wins_witness :
    tableIdx 1024 = tableIdx 0 ∧
    slotValue [(1024, true, 0), (0, false, 7)] (tableIdx 0) = packEntry (0, false, 7) :=
  table_collision_last_write_wins [] [] [] (1024, true, 0) (0, false, 7)
    (by decide) (by decide) (by decide) (by simp)

/-! ### Claim C8: fact production and the taken-parity placeholder -/

theorem branchFactAt_addr {i : Nat} {pc w : Int} {f : Int × Bool × Int}
    (h : branchFactAt i pc w = some f) : f.1 = pc := by
  simp only [branchFactAt] at h
  split at h
  · exact (congrArg Prod.fst (Option.some.inj h)).symm
  · split at h
    · exact (congrArg Prod.fst (Option.some.inj h)).symm
    · cases h

theorem genGo_mem (ws : List Int) : ∀ (i0 : Nat) (pc0 : Int) (f : Int × Bool × Int),
    (f ∈ genGo i0 pc0 ws ↔
      ∃ j w, ws.get? j = some w ∧
        branchFactAt (i0 + j) (pc0 + 4 * (j : Int)) w = some f) := by
  induction ws with
  | nil =>
    intro i0 pc0 f
    simp [genGo]
  | cons inst rest ih =>
    intro i0 pc0 f
    constructor
    · intro hmem
      unfold genGo at hmem
      cases hb : branchFactAt i0 pc0 inst with
      | some g =>
        rw [hb] at hmem
        rcases List.mem_cons.mp hmem with h | h
        · refine ⟨0, inst, rfl, ?_⟩
          have e1 : i0 + 0 = i0 := rfl
          have e2 : pc0 + 4 * ((0 : Nat) : Int) = pc0 := by push_cast; ring
          rw [e1, e2, hb, h]
        · obtain ⟨j, w, hj, hf⟩ := (ih (i0 + 1) (pc0 + 4) f).mp h
          refine ⟨j + 1, w, by simpa using hj, ?_⟩
          have e1 : i0 + (j + 1) = i0 + 1 + j := by omega
          have e2 : pc0 + 4 * ((j + 1 : Nat) : Int) = pc0 + 4 + 4 * (j : Int) := by
            push_cast; ring
          rw [e1, e2]
          exact hf
      | none =>
        rw [hb] at hmem
        obtain ⟨j, w, hj, hf⟩ := (ih (i0 + 1) (pc0 + 4) f).mp hmem
        refine ⟨j + 1, w, by simpa using hj, ?_⟩
        have e1 : i0 + (j + 1) = i0 + 1 + j := by omega
        have e2 : pc0 + 4 * ((j + 1 : Nat) : Int) = pc0 + 4 + 4 * (j : Int) := by
          push_cast; ring
        rw [e1, e2]
        exact hf
    · rintro ⟨j, w, hj, hf⟩
      cases j with
      | zero =>
        have hw : inst = w := by simpa using hj
        subst hw
        have e1 : i0 + 0 = i0 := rfl
        have e2 : pc0 + 4 * ((0 : Nat) : Int) = pc0 := by push_cast; ring
        rw [e1, e2] at hf
        unfold genGo
        rw [hf]
        exact List.mem_cons_self _ _
      | succ j =>
        have hrec : f ∈ genGo (i0 + 1) (pc0 + 4) rest := by
          refine (ih (i0 + 1) (pc0 + 4) f).mpr ⟨j, w, by simpa using hj, ?_⟩
          have e1 : i0 + 1 + j = i0 + (j + 1) := by omega
          have e2 : pc0 + 4 + 4 * (j : Int) = pc0 + 4 * ((j + 1 : Nat) : Int) := by
            push_cast; ring
          rw [e1, e2]
          exact hf
        unfold genGo
        cases hb : branchFactAt i0 pc0 inst with
        | some g => exact List.mem_cons_of_mem _ hrec
        | none => exact hrec

/-- C8: for a word sequence, a word `w` with low 7 bits `0x63` at
enumeration index `i` (counting all words, at address `4*i`) produces a
fact whose taken flag is true exactly when `i` is even, and every fact
recorded at that address carries that flag; a word whose opcode is
neither `0x63` nor `0x6F` produces no fact at its address. -/
theorem taken_alternates_with_index (ws : List Int) (i : Nat) (w : Int)
    (hget : ws.get? i = some w) (hw : 0 ≤ w) :
    (w % 128 = 0x63 →
      (∃ tg, ((4 * (i : Int)), (i % 2 == 0), tg) ∈ generate_from_assembly ws) ∧
      (∀ t tg, ((4 * (i : Int)), t, tg) ∈ generate_from_assembly ws →
        (t = true ↔ i % 2 = 0))) ∧
    (w % 128 ≠ 0x63 → w % 128 ≠ 0x6F →
      ∀ t tg, ((4 * (i : Int)), t, tg) ∉ generate_from_assembly ws) := by
  have hopc : pyAnd w 127 = w % 128 := by
    rw [show (127 : Int) = 2 ^ 7 - 1 from by norm_num, pyAnd_mask _ 7 hw]
    norm_num
  constructor
  · intro hb
    have hfact : ∃ tg, branchFactAt i (4 * (i : Int)) w =
        some ((4 * (i : Int)), (i % 2 == 0), tg) := by
      simp only [branchFactAt]
      rw [hopc, if_pos hb]
      exact ⟨_, rfl⟩
    obtain ⟨tg0, hfact⟩ := hfact
    constructor
    · refine ⟨tg0, (genGo_mem ws 0 0 _).mpr ⟨i, w, hget, ?_⟩⟩
      have e1 : 0 + i = i := by omega
      have e2 : (0 : Int) + 4 * (i : Int) = 4 * (i : Int) := by ring
      rw [e1, e2]
      exact hfact
    · intro t tg hmem
      obtain ⟨j, w', hj, hf⟩ := (genGo_mem ws 0 0 _).mp hmem
      rw [Nat.zero_add] at hf
      rw [show (0 : Int) + 4 * (j : Int) = 4 * (j : Int) from by ring] at hf
      have haddr := branchFactAt_addr hf
      have hji : i = j := by
        have h4 : (4 * (i : Int)) = 4 * (j : Int) := haddr
        omega
      subst hji
      have hww : w' = w := by
        rw [hget] at hj
        exact (Option.some.inj hj).symm
      subst hww
      simp only [branchFactAt] at hf
      rw [hopc, if_pos hb] at hf
      have := Option.some.inj hf
      have ht : (i % 2 == 0) = t := (congrArg (fun p => p.2.1) this)
      rw [← ht]
      simp
  · intro hb1 hb2 t tg hmem
    obtain ⟨j, w', hj, hf⟩ := (genGo_mem ws 0 0 _).mp hmem
    rw [Nat.zero_add] at hf
    rw [show (0 : Int) + 4 * (j : Int) = 4 * (j : Int) from by ring] at hf
    have haddr := branchFactAt_addr hf
    have hji : i = j := by
      have h4 : (4 * (i : Int)) = 4 * (j : Int) := haddr
      omega
    subst hji
    have hww : w' = w := by
      rw [hget] at hj
      exact (Option.some.inj hj).symm
    subst hww
    simp only [branchFactAt] at hf
    rw [hopc, if_neg hb1, if_neg hb2] at hf
    cases hf

/-- C8 (witness): in the sequence `[0x63, 0x13]` the branch word at index
0 yields a taken fact at address 0, and the non-branch word at index 1
yields no fact at address 4. -/
theorem taken_alternates_with_index_witness :
    (∃ tg, ((4 * ((0 : Nat) : Int)), ((0 : Nat) % 2 == 0), tg) ∈
      generate_from_assembly [0x63, 0x13]) ∧
    (∀ t tg, ((4 * ((1 : Nat) : Int)), t, tg) ∉ generate_from_assembly [(0x63 : Int), 0x13]) :=
  ⟨((taken_alternates_with_index [0x63, 0x13] 0 0x63 rfl (by decide)).1 (by decide)).1,
   (taken_alternates_with_index [0x63, 0x13] 1 0x13 rfl (by decide)).2 (by decide) (by decide)⟩

/-! ### Claim C4: JAL fact derivation -/

/-- C4 (counterexample): the deriver does not compute
`pc + sign_extend(w & 0xFFFFF000)`.  For `w = 0x0020006F` (opcode `0x6F`,
only word bit 21 set) at `pc = 0` the code reassembles the standard
J-immediate and records target 2, while the claim's formula gives
`0x200000`. -/
theorem jal_decode_not_simplified_reversal :
    branchFactAt 0 0 0x0020006F = some (0, true, 2) ∧
    specJalTarget 0 0x0020006F = 0x200000 ∧
    ((2 : Int) ≠ 0x200000) :=
  ⟨by decide, by decide, by decide⟩

/-- C4 (amended): for every 32-bit word `w` with low 7 bits `0x6F` at
address `pc`, the deriver records the fact `(pc, true, target)` where the
offset is the standard RISC-V J-immediate reassembly of `w` — bit 31 to
offset bit 20, bits 19:12 to offset bits 19:12, bit 20 to offset bit 11,
bits 30:21 to offset bits 10:1 — sign-extended by adding `0xFFE00000`
when bit 31 is set, and `target = (pc + offset) mod 2^32`. -/
theorem jal_fact_standard_jimm (i : Nat) (pc w : Int) (hpc : 0 ≤ pc) (hw : 0 ≤ w)
    (hop : w % 128 = 0x6F) :
    branchFactAt i pc w = some (pc, true,
      (pc + ((w / 2 ^ 31 % 2) * 0xFFE00000 + (w / 2 ^ 31 % 2) * 2 ^ 20 +
        (w / 2 ^ 12 % 2 ^ 8) * 2 ^ 12 + (w / 2 ^ 20 % 2) * 2 ^ 11 +
        (w / 2 ^ 21 % 2 ^ 10) * 2)) % 2 ^ 32) := by
  have hopc : pyAnd w 127 = w % 128 := by
    rw [show (127 : Int) = 2 ^ 7 - 1 from by norm_num, pyAnd_mask _ 7 hw]
    norm_num
  have f31 : pyAnd (pyShr w 31) 1 = w / 2 ^ 31 % 2 := by
    rw [show pyShr w 31 = w / 2 ^ 31 from rfl]
    rw [show (1 : Int) = 2 ^ 1 - 1 from by norm_num,
      pyAnd_mask _ 1 (Int.ediv_nonneg hw (by positivity))]
    norm_num
  have f19 : pyAnd (pyShr w 12) 255 = w / 2 ^ 12 % 2 ^ 8 := by
    rw [show pyShr w 12 = w / 2 ^ 12 from rfl]
    rw [show (255 : Int) = 2 ^ 8 - 1 from by norm_num,
      pyAnd_mask _ 8 (Int.ediv_nonneg hw (by positivity))]
  have f20 : pyAnd (pyShr w 20) 1 = w / 2 ^ 20 % 2 := by
    rw [show pyShr w 20 = w / 2 ^ 20 from rfl]
    rw [show (1 : Int) = 2 ^ 1 - 1 from by norm_num,
      pyAnd_mask _ 1 (Int.ediv_nonneg hw (by positivity))]
    norm_num
  have f21 : pyAnd (pyShr w 21) 1023 = w / 2 ^ 21 % 2 ^ 10 := by
    rw [show pyShr w 21 = w / 2 ^ 21 from rfl]
    rw [show (1023 : Int) = 2 ^ 10 - 1 from by norm_num,
      pyAnd_mask _ 10 (Int.ediv_nonneg hw (by positivity))]
  simp only [branchFactAt]
  rw [hopc, if_neg (by simp [hop]), if_pos hop]
  refine congrArg (fun z => some (pc, true, z)) ?_
  rw [f31, f19, f20, f21]
  simp only [pyShl, pow_one]
  set a := w / 2 ^ 31 % 2 with hA
  set b := w / 2 ^ 12 % 2 ^ 8 with hB
  set c := w / 2 ^ 20 % 2 with hC
  set d := w / 2 ^ 21 % 2 ^ 10 with hD
  have ha0 : 0 ≤ a := Int.emod_nonneg _ (by norm_num)
  have ha1 : a < 2 := Int.emod_lt_of_pos _ (by norm_num)
  have hb0 : 0 ≤ b := Int.emod_nonneg _ (by norm_num)
  have hb1 : b < 2 ^ 8 := Int.emod_lt_of_pos _ (by norm_num)
  have hc0 : 0 ≤ c := Int.emod_nonneg _ (by norm_num)
  have hc1 : c < 2 := Int.emod_lt_of_pos _ (by norm_num)
  have hd0 : 0 ≤ d := Int.emod_nonneg _ (by norm_num)
  have hd1 : d < 2 ^ 10 := Int.emod_lt_of_pos _ (by norm_num)
  rw [pyOr_eq_add (a * 2 ^ 20) (b * 2 ^ 12) 20 (by positivity) (Int.mul_emod_left a (2 ^ 20))
    (by positivity) (by omega)]
  rw [pyOr_eq_add (a * 2 ^ 20 + b * 2 ^ 12) (c * 2 ^ 11) 12 (by positivity) (by omega)
    (by positivity) (by omega)]
  rw [pyOr_eq_add (a * 2 ^ 20 + b * 2 ^ 12 + c * 2 ^ 11) (d * 2) 11 (by positivity) (by omega)
    (by positivity) (by omega)]
  have hcase : a = 0 ∨ a = 1 := by omega
  rcases hcase with h | h
  · rw [if_neg (by omega)]
    rw [show (4294967295 : Int) = 2 ^ 32 - 1 from by norm_num,
      pyAnd_mask _ 32 (by positivity)]
    omega
  · rw [if_pos (by omega)]
    rw [pyOr_comm, pyOr_eq_add 4292870144 (a * 2 ^ 20 + b * 2 ^ 12 + c * 2 ^ 11 + d * 2) 21
      (by norm_num) (by norm_num) (by positivity) (by omega)]
    rw [show (4294967295 : Int) = 2 ^ 32 - 1 from by norm_num,
      pyAnd_mask _ 32 (by positivity)]
    omega

/-- C4 (witness): the amended J-decode formula evaluated at the concrete
word `0x0020006F` at address 0. -/
theorem jal_fact_standard_jimm_witness :
    branchFactAt 0 0 0x0020006F = some (0, true,
      ((0 : Int) + (((0x0020006F : Int) / 2 ^ 31 % 2) * 0xFFE00000 +
        ((0x0020006F : Int) / 2 ^ 31 % 2) * 2 ^ 20 +
        ((0x0020006F : Int) / 2 ^ 12 % 2 ^ 8) * 2 ^ 12 +
        ((0x0020006F : Int) / 2 ^ 20 % 2) * 2 ^ 11 +
        ((0x0020006F : Int) / 2 ^ 21 % 2 ^ 10) * 2)) % 2 ^ 32) :=
  jal_fact_standard_jimm 0 0 0x0020006F le_rfl (by norm_num) (by decide)

/-! ### Claim C10: unresolvable branch/JAL targets abort the run -/

theorem encode_branch_error (labels : LabelMap) (op t : List Char)
    (ops : List (List Char)) (pc : Int) (hget : ops.get? 2 = some t)
    (hlab : lookupAssoc labels t = none) (hint : pyIntBase0 t = none) :
    ∃ e, encode_branch labels op ops pc = .error e := by
  have hlen : 2 < ops.length := (List.get?_eq_some.mp hget).1
  obtain ⟨t0, h0⟩ : ∃ t0, ops.get? 0 = some t0 :=
    ⟨_, List.get?_eq_get (by omega)⟩
  obtain ⟨t1, h1⟩ : ∃ t1, ops.get? 1 = some t1 :=
    ⟨_, List.get?_eq_get (by omega)⟩
  simp only [List.get?_eq_getElem?] at h0 h1 hget
  rcases hr1 : parse_register t0 with e1 | v1
  · exact ⟨e1, by simp [encode_branch, getOperand, h0, hr1, Except.bind, bind]⟩
  · rcases hr2 : parse_register t1 with e2 | v2
    · exact ⟨e2, by simp [encode_branch, getOperand, h0, h1, hr1, hr2, Except.bind, bind]⟩
    · exact ⟨"ValueError: invalid literal for int", by
        simp [encode_branch, getOperand, h0, h1, hget, hr1, hr2, Except.bind, bind,
          resolveTarget, hlab, hint]⟩

theorem encode_jal_error (labels : LabelMap) (t : List Char)
    (ops : List (List Char)) (pc : Int) (hget : ops.get? 1 = some t)
    (hlab : lookupAssoc labels t = none) (hint : pyIntBase0 t = none) :
    ∃ e, encode_jump labels "jal".data ops pc = .error e := by
  have hlen : 1 < ops.length := (List.get?_eq_some.mp hget).1
  obtain ⟨t0, h0⟩ : ∃ t0, ops.get? 0 = some t0 :=
    ⟨_, List.get?_eq_get (by omega)⟩
  simp only [List.get?_eq_getElem?] at h0 hget
  rcases hr1 : parse_register t0 with e1 | v1
  · exact ⟨e1, by simp [encode_jump, getOperand, h0, hr1, Except.bind, bind]⟩
  · exact ⟨"ValueError: invalid literal for int", by
      simp [encode_jump, getOperand, h0, hget, hr1, Except.bind, bind,
        resolveTarget, hlab, hint]⟩

theorem encode_line_error (labels : LabelMap) (mn t : List Char)
    (ops : List (List Char)) (pc : Int)
    (hmn : (pyLower mn ∈ ["beq".data, "bne".data, "blt".data, "bge".data] ∧
        ops.get? 2 = some t) ∨
      (pyLower mn = "jal".data ∧ ops.get? 1 = some t))
    (hlab : lookupAssoc labels t = none) (hint : pyIntBase0 t = none) :
    ∃ e, encode_line labels pc (mn :: ops) = .error e := by
  rcases hmn with ⟨hin, hget⟩ | ⟨hjal, hget⟩
  · obtain ⟨e, he⟩ := encode_branch_error labels (pyLower mn) t ops pc hget hlab hint
    exact ⟨e, by simp [encode_line, hin, he]⟩
  · obtain ⟨e, he⟩ := encode_jal_error labels t ops pc hget hlab hint
    refine ⟨e, ?_⟩
    have hnb : pyLower mn ∉ ["beq".data, "bne".data, "blt".data, "bge".data] := by
      rw [hjal]; decide
    simp [encode_line, hnb, hjal, he]

theorem pass2Go_error_of_line (labels : LabelMap) (l mn t : List Char)
    (post ops : List (List Char))
    (h1 : pyStrip l ≠ []) (h2 : startsWithHash (pyStrip l) = false)
    (h3 : (pyStrip l).contains ':' = false)
    (htok : pyTokens (pyStrip l) = mn :: ops)
    (hmn : (pyLower mn ∈ ["beq".data, "bne".data, "blt".data, "bge".data] ∧
        ops.get? 2 = some t) ∨
      (pyLower mn = "jal".data ∧ ops.get? 1 = some t))
    (hlab : lookupAssoc labels t = none) (hint : pyIntBase0 t = none) :
    ∀ (pre : List (List Char)) (pc : Int),
      ∃ e, pass2Go labels pc (pre ++ l :: post) = .error e := by
  have hne : (pyStrip l).isEmpty = false := by
    cases hp : (pyStrip l).isEmpty
    · rfl
    · exact absurd (List.isEmpty_iff.mp hp) h1
  intro pre
  induction pre with
  | nil =>
    intro pc
    obtain ⟨e, he⟩ := encode_line_error labels mn t ops pc hmn hlab hint
    refine ⟨e, ?_⟩
    have hcond : ((pyStrip l).isEmpty || startsWithHash (pyStrip l) ||
        (pyStrip l).contains ':') = false := by
      rw [hne, h2, h3]; rfl
    show pass2Go labels pc (l :: post) = .error e
    simp only [pass2Go]
    rw [if_neg (by intro hc; rw [hcond] at hc; exact Bool.false_ne_true hc), htok, he]
  | cons p pre ih =>
    intro pc
    rw [List.cons_append]
    simp only [pass2Go]
    cases hskip : ((pyStrip p).isEmpty || startsWithHash (pyStrip p) ||
        (pyStrip p).contains ':') with
    | true =>
      obtain ⟨e, he⟩ := ih pc
      exact ⟨e, by simp [he]⟩
    | false =>
      rcases henc : encode_line labels pc (pyTokens (pyStrip p)) with e | w
      · exact ⟨e, by simp⟩
      · obtain ⟨e, he⟩ := ih (pc + 4)
        exact ⟨e, by simp [he, Except.map]⟩

/-- C10 (amended): a processed branch (`beq`/`bne`/`blt`/`bge`) or `jal`
instruction line whose target token neither matches a label collected in
pass 1 nor parses under the language-native base-auto-detecting integer
literal syntax (optional sign; decimal; `0x`/`0o`/`0b` prefixes) makes
the whole `assemble` run fail with a raised parse error: the result is an
error, never a partial word list. -/
theorem unresolvable_target_aborts (progLines : List String)
    (pre post : List (List Char)) (l mn t : List Char) (ops : List (List Char))
    (hsplit : progLines.map (fun s => s.data) = pre ++ l :: post)
    (h1 : pyStrip l ≠ []) (h2 : startsWithHash (pyStrip l) = false)
    (h3 : (pyStrip l).contains ':' = false)
    (htok : pyTokens (pyStrip l) = mn :: ops)
    (hmn : (pyLower mn ∈ ["beq".data, "bne".data, "blt".data, "bge".data] ∧
        ops.get? 2 = some t) ∨
      (pyLower mn = "jal".data ∧ ops.get? 1 = some t))
    (hlab : lookupAssoc (pass1Go [] 0 (progLines.map (fun s => s.data))) t = none)
    (hint : pyIntBase0 t = none) :
    ∃ e, assemble progLines = .error e := by
  unfold assemble assembleWith
  rw [hsplit] at hlab ⊢
  exact pass2Go_error_of_line _ l mn t post ops h1 h2 h3 htok hmn hlab hint pre 0

/-- C10 (witness): `beq x0, x0, nowhere` has an unresolvable target and
assembly fails. -/
theorem unresolvable_target_aborts_witness :
    ∃ e, assemble ["beq x0, x0, nowhere"] = .error e :=
  unresolvable_target_aborts ["beq x0, x0, nowhere"] [] []
    "beq x0, x0, nowhere".data "beq".data "nowhere".data
    ["x0".data, "x0".data, "nowhere".data] rfl (by decide) (by decide) (by decide)
    (by decide) (Or.inl ⟨by decide, by decide⟩) (by decide) (by decide)

/-- C10 (counterexample): the target `0b10` of `jal x0, 0b10` matches no
label and does not parse as a decimal or 0x-prefixed integer literal, yet
assembly succeeds with output `[0x6F]`: Python's `int(s, 0)` also accepts
`0b`/`0o` prefixes, so no parse failure is raised. -/
theorem binary_literal_target_assembles :
    specDecimalOrHexLit "0b10".data = none ∧
    lookupAssoc (pass1Go [] 0 (["jal x0, 0b10"].map (fun s => s.data))) "0b10".data = none ∧
    pyIntBase0 "0b10".data = some 2 ∧
    assemble ["jal x0, 0b10"] = .ok [0x6F] :=
  ⟨by decide, by decide, by decide, rfl⟩
